import Mathlib

/-!
Verification development for `labs/topic1_heat/solutions/exercise2_nomanaged.cpp`,
a 2D heat-equation solver with 1D slab domain decomposition.

Modelling conventions:
* IEEE `double` values are idealized as exact rationals (`ℚ`); every arithmetic
  operation the program performs on doubles is one of `+ - * /`, so the
  expression structure carries over verbatim.
* A field buffer (`double*`) is a total map from byte-free element offsets
  (`ℤ`) to values; `Function.update` models a store through the pointer.
* The C `assert` in `index` is modelled separately from the value the function
  computes (`indexAssertOk` below), since with `NDEBUG` the assertion is a
  no-op while the returned offset is unconditionally `x * ny + y`.
* C++ `/` and `%` on `long` truncate toward zero; every division the program
  performs has a nonnegative dividend and positive divisor, where truncation
  agrees with Euclidean division, so `Int.ediv` / `Int.emod` are used.
-/

/-- Buffer of doubles addressed by element offset, modelling a `double*`. -/
abbrev Buf := ℤ → ℚ

/-- Problem parameters, mirroring `struct parameters` (source lines 52-77):
`double dx, dt; long nx, ny, ni; int rank = 0, nranks = 1;`. -/
structure parameters where
  dx : ℚ
  dt : ℚ
  nx : ℤ
  ny : ℤ
  ni : ℤ
  rank : ℤ
  nranks : ℤ
deriving DecidableEq

/-- `static constexpr double alpha() { return 1.0; }` — thermal diffusivity. -/
def parameters.alpha : ℚ := 1

/-- `double gamma() { return alpha() * dt / (dx * dx); }`. -/
def parameters.gamma (p : parameters) : ℚ := parameters.alpha * p.dt / (p.dx * p.dx)

/-- Body of the `parameters(int argc, char* argv[])` constructor after the
three `std::stoll` calls succeed: `dx = 1.0 / nx; dt = dx * dx / (5. * alpha())`,
with the default member values `rank = 0, nranks = 1` (source lines 59-70). -/
def parameters_init (nx ny ni : ℤ) : parameters :=
  let dx : ℚ := 1 / (nx : ℚ)
  ⟨dx, dx * dx / (5 * parameters.alpha), nx, ny, ni, 0, 1⟩

/-- Value computed by `index` (source lines 80-84): row-major offset
`x * p.ny + y`.  The `assert`s of the source are modelled by
`indexAssertOk`; with `NDEBUG` (release build) the function is exactly this. -/
def index (x y : ℤ) (p : parameters) : ℤ := x * p.ny + y

/-- The asserted precondition of `index` (source lines 81-82):
`assert(x >= 0 && x < p.nx); assert(y >= 0 && y < p.ny);`. -/
def indexAssertOk (x y : ℤ) (p : parameters) : Prop :=
  (0 ≤ x ∧ x < p.nx) ∧ (0 ≤ y ∧ y < p.ny)

instance (x y : ℤ) (p : parameters) : Decidable (indexAssertOk x y p) := by
  unfold indexAssertOk; infer_instance

/-- Boundary-condition injections performed by the single-cell `stencil`
before it reads neighbour values (source lines 89-102).  Each conditional
stores a fixed constant into the "current" buffer `u_old`, in source order. -/
def applyBC (u_old : Buf) (x y : ℤ) (p : parameters) : Buf :=
  let u1 := if y = 1 then Function.update u_old (index x (y - 1) p) 0 else u_old
  let u2 := if y = p.ny - 2 then Function.update u1 (index x (y + 1) p) 0 else u1
  let u3 := if p.rank = 0 ∧ x = 1 then Function.update u2 (index (x - 1) y p) 1 else u2
  if p.rank = p.nranks - 1 ∧ x = p.nx then Function.update u3 (index (x + 1) y p) 0 else u3

/-- The 5-point update value assigned to `u_new[idx(x, y)]` (source lines 104-105),
read from the current buffer after the boundary injections. -/
def stencilValue (uo : Buf) (x y : ℤ) (p : parameters) : ℚ :=
  (1 - 4 * p.gamma) * uo (index x y p) +
    p.gamma * (uo (index (x + 1) y p) + uo (index (x - 1) y p) +
      uo (index x (y + 1) p) + uo (index x (y - 1) p))

/-- Result of one single-cell stencil call: the two (possibly mutated)
buffers and the returned per-cell energy. -/
structure EvalState where
  u_new : Buf
  u_old : Buf
  energy : ℚ

/-- Single-cell `stencil(double* u_new, double* u_old, long x, long y, parameters p)`
(source lines 87-108): boundary injections into `u_old`, the 5-point store into
`u_new[idx(x,y)]`, and the returned energy `0.5 * u_new[idx(x,y)] * u_new[idx(x,y)] * p.dx * p.dx`. -/
def stencil (u_new u_old : Buf) (x y : ℤ) (p : parameters) : EvalState :=
  let uo := applyBC u_old x y p
  let un := Function.update u_new (index x y p) (stencilValue uo x y p)
  ⟨un, uo, 1 / 2 * un (index x y p) * un (index x y p) * p.dx * p.dx⟩

/-- `struct grid { long x_start, x_end, y_start, y_end; }` (source lines 111-113). -/
structure grid where
  x_start : ℤ
  x_end : ℤ
  y_start : ℤ
  y_end : ℤ
deriving DecidableEq

/-- The `split` lambda of the region evaluator (source lines 131-133):
`split(i) = (i / dy + x_start, i % dy + y_start)`.  Dividend and divisor are
nonnegative resp. positive at every call site, where C++ truncating division
agrees with `Int.ediv` / `Int.emod`. -/
def split (x_start y_start dy : ℤ) (i : ℤ) : ℤ × ℤ :=
  (Int.ediv i dy + x_start, Int.emod i dy + y_start)

/-- Modelled from the spec: the inverse map named by the specification,
`combine(x, y) = (x - x_start) * dy + (y - y_start)`; the source has no such
function, it exists only as the spec's stated inverse of `split`. -/
def combine (x_start y_start dy : ℤ) (x y : ℤ) : ℤ :=
  (x - x_start) * dy + (y - y_start)

/-- The flat iteration space of a region (`views::iota((long)0, n)` with
`n = dx * dy`, source lines 117-127) mapped back to 2D through `split`. -/
def regionCells (g : grid) : List (ℤ × ℤ) :=
  let dx := g.x_end - g.x_start
  let dy := g.y_end - g.y_start
  (List.range (dx * dy).toNat).map (fun i => split g.x_start g.y_start dy (Int.ofNat i))

/-- One step of the `std::transform_reduce` over a region: evaluate the
single-cell stencil and add its energy to the accumulator (source lines 135-142).
The parallel reduction order is unspecified in the source; the left fold below
is the canonical sequentialization (all per-cell effects here commute). -/
def evalCell (p : parameters) (s : EvalState) (c : ℤ × ℤ) : EvalState :=
  let r := stencil s.u_new s.u_old c.1 c.2 p
  ⟨r.u_new, r.u_old, s.energy + r.energy⟩

/-- Region form of `stencil(double*, double*, grid, parameters)`
(source lines 115-143). -/
def evalRegion (u_new u_old : Buf) (g : grid) (p : parameters) : EvalState :=
  (regionCells g).foldl (evalCell p) ⟨u_new, u_old, 0⟩

/-- Grid evaluated by `prev_boundary` (source line 158):
`{ .x_start = p.nx, .x_end = p.nx + 1, .y_start = 1, .y_end = p.ny - 1 }`. -/
def prev_boundary_grid (p : parameters) : grid := ⟨p.nx, p.nx + 1, 1, p.ny - 1⟩

/-- Grid evaluated by `next_boundary` (source line 169):
`{ .x_start = 1, .x_end = 2, .y_start = 1, .y_end = p.ny - 1 }`. -/
def next_boundary_grid (p : parameters) : grid := ⟨1, 2, 1, p.ny - 1⟩

/-- Grid evaluated by `internal` (source line 146):
`{ .x_start = 2, .x_end = p.nx, .y_start = 1, .y_end = p.ny - 1 }`. -/
def internal_grid (p : parameters) : grid := ⟨2, p.nx, 1, p.ny - 1⟩

/-- `MPI_Recv` of `count` doubles into `u` starting at element offset `base`:
the received message `msg` overwrites `u[base .. base+count)`. -/
def recvRow (u : Buf) (base count : ℤ) (msg : ℤ → ℚ) : Buf :=
  fun o => if base ≤ o ∧ o < base + count then msg (o - base) else u o

/-- `prev_boundary` (source lines 150-160): when `rank > 0`, send row `1` and
receive the lower halo row `0` from the lower-ranked neighbour (`msg` is the
received message; the send does not change local state), then evaluate the
region `prev_boundary_grid`. -/
def prev_boundary (u_new u_old : Buf) (p : parameters) (msg : ℤ → ℚ) : EvalState :=
  let u_old' := if 0 < p.rank then recvRow u_old 0 p.ny msg else u_old
  evalRegion u_new u_old' (prev_boundary_grid p) p

/-- `next_boundary` (source lines 162-171): when `rank < nranks - 1`, receive
the upper halo row `nx + 1` from the higher-ranked neighbour and send row `nx`,
then evaluate the region `next_boundary_grid`. -/
def next_boundary (u_new u_old : Buf) (p : parameters) (msg : ℤ → ℚ) : EvalState :=
  let u_old' := if p.rank < p.nranks - 1 then recvRow u_old ((p.nx + 1) * p.ny) p.ny msg else u_old
  evalRegion u_new u_old' (next_boundary_grid p) p

/-- `internal` (source lines 145-148). -/
def internal (u_new u_old : Buf) (p : parameters) : EvalState :=
  evalRegion u_new u_old (internal_grid p) p

/-- `std::fill_n(std::execution::par_unseq, first, count, value)` on a buffer. -/
def fill_n (first : Buf) (count : ℤ) (value : ℚ) : Buf :=
  fun o => if 0 ≤ o ∧ o < count then value else first o

/-- `initialize` (source lines 173-177; Lean reserves the source's name):
the body is two `std::fill_n` calls, both through the first pointer `u_new` —
the second pointer `u_old` is never written. -/
def initialize_bufs (u_new u_old : Buf) (n : ℤ) : Buf × Buf :=
  (fill_n (fill_n u_new n 0) n 0, u_old)

/-- A freshly allocated `std::vector<double>(n)` is value-initialized: all zeros. -/
def zeroBuf : Buf := fun _ => 0

/-- The two buffer pointers of `main`, in their role as of the current moment:
`u_new` first, `u_old` second. -/
structure SimState where
  u_new : Buf
  u_old : Buf

/-- One iteration of the time loop of `main` (source lines 214-227) for a run
in which the communication guards are closed or the messages are given:
`prev_boundary`, then `next_boundary`, then `internal`, then
`std::swap(u_new, u_old)`.  The energy reduction and the progress print do not
change the buffers. -/
def timeStep (p : parameters) (mprev mnext : ℤ → ℚ) (s : SimState) : SimState :=
  let s1 := prev_boundary s.u_new s.u_old p mprev
  let s2 := next_boundary s1.u_new s1.u_old p mnext
  let s3 := internal s2.u_new s2.u_old p
  ⟨s3.u_old, s3.u_new⟩

/-- The buffer part of `main` for a single-process run (`rank = 0, nranks = 1`,
so both communication guards are closed and the message arguments are unused):
allocate two zero vectors of `n = (nx + 2) * ny` doubles, run `initialize`,
then run `ni` iterations of the time loop (source lines 193-227). -/
def runSim (p : parameters) : SimState :=
  let n := (p.nx + 2) * p.ny
  let bufs := initialize_bufs zeroBuf zeroBuf n
  (List.range p.ni.toNat).foldl (fun s _ => timeStep p (fun _ => 0) (fun _ => 0) s) ⟨bufs.1, bufs.2⟩

/-- `auto header_bytes = 2 * sizeof(long) + sizeof(double);` (source line 239),
with `sizeof(long) = sizeof(double) = 8` on LP64. -/
def header_bytes : ℤ := 2 * 8 + 8

/-- `auto values_offset = header_bytes + p.rank * values_bytes_per_rank;`
(source lines 240-250). -/
def values_offset (p : parameters) : ℤ := header_bytes + p.rank * (p.nx * p.ny * 8)

/-- The block of `nx * ny` doubles a rank writes at `values_offset`:
`MPI_File_iwrite_at(f, values_offset, u_new + p.ny, nx * ny, MPI_DOUBLE, ...)`
(source line 251) — the buffer is sampled starting at element offset `p.ny`. -/
def fileBlock (p : parameters) (u : Buf) : List ℚ :=
  (List.range (p.nx * p.ny).toNat).map (fun o => u (p.ny + Int.ofNat o))

/-- C-locale `isspace`, the whitespace class skipped by `std::stoll`. -/
def isSpaceC (c : Char) : Bool :=
  c = ' ' || c = '\t' || c = '\n' || c.toNat = 11 || c.toNat = 12 || c = '\r'

/-- `LLONG_MAX`. -/
def longLongMax : ℤ := 2 ^ 63 - 1

/-- `LLONG_MIN`. -/
def longLongMin : ℤ := -(2 ^ 63)

/-- Numeric value of a list of decimal digit characters. -/
def digitsToNat (ds : List Char) : ℕ :=
  ds.foldl (fun a c => a * 10 + (c.toNat - Char.toNat '0')) 0

/-- `std::stoll` in base 10: skip C-locale whitespace, an optional sign, then a
maximal nonempty run of decimal digits gives the value; no digits
(`std::invalid_argument`) or a value outside `long long`
(`std::out_of_range`) throw — modelled as `none`, since the constructor does
not catch and the uncaught exception terminates the process. -/
def stoll (s : String) : Option ℤ :=
  let cs := s.data.dropWhile isSpaceC
  let signed : ℤ × List Char :=
    match cs with
    | '-' :: rest => (-1, rest)
    | '+' :: rest => (1, rest)
    | rest => (1, rest)
  let ds := signed.2.takeWhile (fun c => decide ('0' ≤ c) && decide (c ≤ '9'))
  if ds.isEmpty then none
  else
    let v : ℤ := signed.1 * (digitsToNat ds : ℤ)
    if v < longLongMin ∨ longLongMax < v then none else some v

/-- `parameters::parameters(int argc, char* argv[])` (source lines 59-70) as a
function of the argument vector (`argv[0]` is the program name, `argc` is the
list length): `none` models process termination — either the explicit
`std::terminate()` on `argc != 4` or an uncaught `std::stoll` exception. -/
def parameters_of_argv (argv : List String) : Option parameters :=
  match argv with
  | [_, a1, a2, a3] =>
    match stoll a1, stoll a2, stoll a3 with
    | some nx, some ny, some ni => some (parameters_init nx ny ni)
    | _, _, _ => none
  | _ => none

/-- `main` at the granularity of C9: parameter construction is the first
statement; if it terminates, no simulation state is ever produced.  The
simulation part is modelled for single-process runs by `runSim`. -/
def mainRun (argv : List String) : Option SimState :=
  match parameters_of_argv argv with
  | none => none
  | some p => some (runSim p)

/-- The coordinate pairs the single-cell stencil passes to `index` (through its
`idx` lambda), in source order: the four conditional boundary injections, the
store target, the five reads of the update formula, and the two energy reads. -/
def stencilIndexArgs (x y : ℤ) (p : parameters) : List (ℤ × ℤ) :=
  (if y = 1 then [(x, y - 1)] else []) ++
  (if y = p.ny - 2 then [(x, y + 1)] else []) ++
  (if p.rank = 0 ∧ x = 1 then [(x - 1, y)] else []) ++
  (if p.rank = p.nranks - 1 ∧ x = p.nx then [(x + 1, y)] else []) ++
  [(x, y), (x, y), (x + 1, y), (x - 1, y), (x, y + 1), (x, y - 1), (x, y), (x, y)]

/-- Observable events of one iteration of the time loop: the two blocking
point-to-point transfers of an exchange, and the stencil evaluation of one cell. -/
inductive Ev where
  | send : Ev
  | recv : Ev
  | eval : ℤ → ℤ → Ev
deriving DecidableEq

/-- The cell-evaluation events of one region, in flat-index order. -/
def evalEvents (g : grid) : List Ev := (regionCells g).map fun c => Ev.eval c.1 c.2

/-- Events of `prev_boundary` in program order: `MPI_Send` then `MPI_Recv`
when `rank > 0`, then the region evaluation (source lines 150-160). -/
def prev_boundary_events (p : parameters) : List Ev :=
  (if 0 < p.rank then [Ev.send, Ev.recv] else []) ++ evalEvents (prev_boundary_grid p)

/-- Events of `next_boundary` in program order: `MPI_Recv` then `MPI_Send`
when `rank < nranks - 1`, then the region evaluation (source lines 162-171). -/
def next_boundary_events (p : parameters) : List Ev :=
  (if p.rank < p.nranks - 1 then [Ev.recv, Ev.send] else []) ++ evalEvents (next_boundary_grid p)

/-- Events of `internal` (source lines 145-148). -/
def internal_events (p : parameters) : List Ev := evalEvents (internal_grid p)

/-- Events of one iteration of the time loop, in the statement order of `main`
(source lines 217-219): `prev_boundary`, then `next_boundary`, then `internal`. -/
def iteration_events (p : parameters) : List Ev :=
  prev_boundary_events p ++ next_boundary_events p ++ internal_events p

/-- Whether an event is a cell evaluation of the interior region
(`2 <= x < nx`, the extent of `internal_grid`). -/
def isInteriorEv (p : parameters) : Ev → Bool
  | Ev.eval x _ => decide (2 ≤ x ∧ x < p.nx)
  | _ => false

/-- Parameters of the run `nx = 4, ny = 6, ni = 1` on a single process. -/
def p46 : parameters := parameters_init 4 6 1

/-- Parameters of the run `nx = 1, ny = 3, ni = 1` on a single process
(`dx = 1, dt = 1/5, gamma = 1/5`). -/
def p13 : parameters := parameters_init 1 3 1

/-- Parameters of a multi-process run: `nx = 4, ny = 6, ni = 1` on the middle
rank `1` of `3` (`dx = 1/4`, `dt = dx * dx / 5 = 1/80`). -/
def pMR : parameters := ⟨1 / 4, 1 / 80, 4, 6, 1, 1, 3⟩

/-- Pointwise description of the four boundary injections: the last store wins,
so the conditions are checked in reverse source order. -/
lemma applyBC_apply (u : Buf) (x y : ℤ) (p : parameters) (o : ℤ) :
    applyBC u x y p o =
      if (p.rank = p.nranks - 1 ∧ x = p.nx) ∧ o = index (x + 1) y p then 0
      else if (p.rank = 0 ∧ x = 1) ∧ o = index (x - 1) y p then 1
      else if y = p.ny - 2 ∧ o = index x (y + 1) p then 0
      else if y = 1 ∧ o = index x (y - 1) p then 0
      else u o := by
  unfold applyBC
  simp only [ite_apply, Function.update_apply, ite_and]

/-- Every cell produced by a region evaluation lies inside the region
(given that the inner extent `dy` is positive, which holds at every region the
program builds whenever the region is nonempty). -/
lemma regionCells_mem_strong (g : grid) {c : ℤ × ℤ} (hc : c ∈ regionCells g) :
    0 < (g.x_end - g.x_start) * (g.y_end - g.y_start) ∧
      (0 < g.y_end - g.y_start →
        g.x_start ≤ c.1 ∧ c.1 < g.x_end ∧ g.y_start ≤ c.2 ∧ c.2 < g.y_end) := by
  unfold regionCells at hc
  simp only [List.mem_map, List.mem_range] at hc
  obtain ⟨k, hk, rfl⟩ := hc
  have hk' : (k : ℤ) < (g.x_end - g.x_start) * (g.y_end - g.y_start) := Int.lt_toNat.mp hk
  have hk0 : (0 : ℤ) ≤ (k : ℤ) := Int.ofNat_nonneg k
  refine ⟨lt_of_le_of_lt hk0 hk', fun hdy => ?_⟩
  have hdx : 0 < g.x_end - g.x_start := by
    by_contra hcon
    push_neg at hcon
    nlinarith
  have hdive : Int.ediv (k : ℤ) (g.y_end - g.y_start) < g.x_end - g.x_start :=
    (Int.ediv_lt_iff_lt_mul hdy).mpr (by linarith)
  have hdiv0 : 0 ≤ Int.ediv (k : ℤ) (g.y_end - g.y_start) := Int.ediv_nonneg hk0 (le_of_lt hdy)
  have hmod0 : 0 ≤ Int.emod (k : ℤ) (g.y_end - g.y_start) := Int.emod_nonneg _ (ne_of_gt hdy)
  have hmodlt : Int.emod (k : ℤ) (g.y_end - g.y_start) < g.y_end - g.y_start :=
    Int.emod_lt_of_pos _ hdy
  simp only [split, Int.ofNat_eq_coe]
  refine ⟨by linarith, by linarith, by linarith, by linarith⟩

/-- C1: for every coordinate and every pair of current/next buffers, the
single-cell stencil kernel leaves the current buffer with its boundary
injections applied, stores into the next buffer at `(x,y)` — and only there —
the value `(1-4*gamma)*current[x,y] + gamma*(current[x+1,y]+current[x-1,y]+current[x,y+1]+current[x,y-1])`
read from the injected current buffer, and returns `0.5 * next[x,y]^2 * dx^2`
as the per-cell energy contribution. -/
theorem C1_stencil_kernel (u_new u_old : Buf) (x y : ℤ) (p : parameters) :
    (stencil u_new u_old x y p).u_old = applyBC u_old x y p ∧
    (stencil u_new u_old x y p).u_new (index x y p) =
      (1 - 4 * p.gamma) * applyBC u_old x y p (index x y p) +
        p.gamma * (applyBC u_old x y p (index (x + 1) y p) +
          applyBC u_old x y p (index (x - 1) y p) +
          applyBC u_old x y p (index x (y + 1) p) +
          applyBC u_old x y p (index x (y - 1) p)) ∧
    (∀ o : ℤ, o ≠ index x y p → (stencil u_new u_old x y p).u_new o = u_new o) ∧
    (stencil u_new u_old x y p).energy =
      1 / 2 * (stencil u_new u_old x y p).u_new (index x y p) *
        (stencil u_new u_old x y p).u_new (index x y p) * p.dx * p.dx := by
  refine ⟨rfl, ?_, ?_, rfl⟩
  · show Function.update u_new (index x y p) (stencilValue (applyBC u_old x y p) x y p)
        (index x y p) = _
    rw [Function.update_same]
    rfl
  · intro o ho
    show Function.update u_new (index x y p) (stencilValue (applyBC u_old x y p) x y p) o
        = u_new o
    exact Function.update_noteq ho _ _

/-- Witness for C1: the kernel invoked at `(1,1)` of `p46` does not write the
next buffer at offset `8` (the store target is offset `index 1 1 p46 = 7`). -/
theorem C1_stencil_kernel_witness :
    (stencil zeroBuf zeroBuf 1 1 p46).u_new 8 = zeroBuf 8 :=
  (C1_stencil_kernel zeroBuf zeroBuf 1 1 p46).2.2.1 8 (by decide)

/-- C6: for parameters with `nx >= 1` and `ny >= 1`, the grid-addressing
offset maps every coordinate `(x,y)` with `0 <= x < nx+2`, `0 <= y < ny` into
`[0, (nx+2)*ny)`, injectively: distinct coordinate pairs give distinct offsets. -/
theorem C6_index_bijective (p : parameters) (hnx : 1 ≤ p.nx) (hny : 1 ≤ p.ny)
    (x y x' y' : ℤ)
    (hx0 : 0 ≤ x) (hx1 : x < p.nx + 2) (hy0 : 0 ≤ y) (hy1 : y < p.ny)
    (hx0' : 0 ≤ x') (hx1' : x' < p.nx + 2) (hy0' : 0 ≤ y') (hy1' : y' < p.ny) :
    0 ≤ index x y p ∧ index x y p < (p.nx + 2) * p.ny ∧
      (index x y p = index x' y' p → x = x' ∧ y = y') := by
  unfold index
  refine ⟨add_nonneg (mul_nonneg hx0 (by linarith)) hy0, ?_, ?_⟩
  · have h1 : (x + 1) * p.ny ≤ (p.nx + 2) * p.ny :=
      mul_le_mul_of_nonneg_right (by linarith) (by linarith)
    have h2 : (x + 1) * p.ny = x * p.ny + p.ny := by ring
    linarith
  · intro h
    have hxx : x = x' := by
      rcases lt_trichotomy x x' with hlt | heq | hgt
      · exfalso
        have h1 : (x + 1) * p.ny ≤ x' * p.ny :=
          mul_le_mul_of_nonneg_right (by linarith) (by linarith)
        have h2 : (x + 1) * p.ny = x * p.ny + p.ny := by ring
        linarith
      · exact heq
      · exfalso
        have h1 : (x' + 1) * p.ny ≤ x * p.ny :=
          mul_le_mul_of_nonneg_right (by linarith) (by linarith)
        have h2 : (x' + 1) * p.ny = x' * p.ny + p.ny := by ring
        linarith
    subst hxx
    exact ⟨rfl, by linarith⟩

/-- Witness for C6: the halo coordinate `(5,2)` of `p46` (with `nx = 4`) gets
an offset in `[0, 36)`. -/
theorem C6_index_bijective_witness :
    0 ≤ index 5 2 p46 ∧ index 5 2 p46 < (p46.nx + 2) * p46.ny ∧
      (index 5 2 p46 = index 5 2 p46 → (5 : ℤ) = 5 ∧ (2 : ℤ) = 2) :=
  C6_index_bijective p46 (by decide) (by decide) 5 2 5 2 (by decide) (by decide)
    (by decide) (by decide) (by decide) (by decide) (by decide) (by decide)

/-- C7: over a region with positive extents, the flattening map `split` and the
spec's `combine` are mutual inverses between the flat index space
`[0, dx*dy)` and the 2D region `[x_start, x_end) x [y_start, y_end)`. -/
theorem C7_split_combine_inverse (g : grid)
    (hdx : 0 < g.x_end - g.x_start) (hdy : 0 < g.y_end - g.y_start) :
    (∀ i : ℤ, 0 ≤ i → i < (g.x_end - g.x_start) * (g.y_end - g.y_start) →
      combine g.x_start g.y_start (g.y_end - g.y_start)
          (split g.x_start g.y_start (g.y_end - g.y_start) i).1
          (split g.x_start g.y_start (g.y_end - g.y_start) i).2 = i ∧
        g.x_start ≤ (split g.x_start g.y_start (g.y_end - g.y_start) i).1 ∧
        (split g.x_start g.y_start (g.y_end - g.y_start) i).1 < g.x_end ∧
        g.y_start ≤ (split g.x_start g.y_start (g.y_end - g.y_start) i).2 ∧
        (split g.x_start g.y_start (g.y_end - g.y_start) i).2 < g.y_end) ∧
    (∀ x y : ℤ, g.x_start ≤ x → x < g.x_end → g.y_start ≤ y → y < g.y_end →
      split g.x_start g.y_start (g.y_end - g.y_start)
          (combine g.x_start g.y_start (g.y_end - g.y_start) x y) = (x, y) ∧
        0 ≤ combine g.x_start g.y_start (g.y_end - g.y_start) x y ∧
        combine g.x_start g.y_start (g.y_end - g.y_start) x y <
          (g.x_end - g.x_start) * (g.y_end - g.y_start)) := by
  constructor
  · intro i hi0 hin
    have hdive : Int.ediv i (g.y_end - g.y_start) < g.x_end - g.x_start :=
      (Int.ediv_lt_iff_lt_mul hdy).mpr (by linarith)
    have hdiv0 : 0 ≤ Int.ediv i (g.y_end - g.y_start) := Int.ediv_nonneg hi0 (le_of_lt hdy)
    have hmod0 : 0 ≤ Int.emod i (g.y_end - g.y_start) := Int.emod_nonneg _ (ne_of_gt hdy)
    have hmodlt : Int.emod i (g.y_end - g.y_start) < g.y_end - g.y_start :=
      Int.emod_lt_of_pos _ hdy
    have hdm : (g.y_end - g.y_start) * Int.ediv i (g.y_end - g.y_start) +
        Int.emod i (g.y_end - g.y_start) = i := Int.ediv_add_emod i _
    refine ⟨?_, by simp [split]; linarith, by simp [split]; linarith,
      by simp [split]; linarith, by simp [split]; linarith⟩
    simp only [split, combine, add_sub_cancel_right]
    linarith [mul_comm (Int.ediv i (g.y_end - g.y_start)) (g.y_end - g.y_start)]
  · intro x y hx0 hx1 hy0 hy1
    have hc : combine g.x_start g.y_start (g.y_end - g.y_start) x y =
        (y - g.y_start) + (x - g.x_start) * (g.y_end - g.y_start) := by
      unfold combine; ring
    have hdivz : Int.ediv (y - g.y_start) (g.y_end - g.y_start) = 0 :=
      Int.ediv_eq_zero_of_lt (by linarith) (by linarith)
    have hmodz : Int.emod (y - g.y_start) (g.y_end - g.y_start) = y - g.y_start :=
      Int.emod_eq_of_lt (by linarith) (by linarith)
    have hdre : Int.ediv ((y - g.y_start) + (x - g.x_start) * (g.y_end - g.y_start))
        (g.y_end - g.y_start) =
          Int.ediv (y - g.y_start) (g.y_end - g.y_start) + (x - g.x_start) :=
      Int.add_mul_ediv_right _ _ (ne_of_gt hdy)
    have hmre : Int.emod ((y - g.y_start) + (x - g.x_start) * (g.y_end - g.y_start))
        (g.y_end - g.y_start) = Int.emod (y - g.y_start) (g.y_end - g.y_start) :=
      Int.add_mul_emod_self
    refine ⟨?_, ?_, ?_⟩
    · rw [Prod.ext_iff]
      constructor
      · show Int.ediv (combine g.x_start g.y_start (g.y_end - g.y_start) x y)
            (g.y_end - g.y_start) + g.x_start = x
        rw [hc, hdre, hdivz]
        ring
      · show Int.emod (combine g.x_start g.y_start (g.y_end - g.y_start) x y)
            (g.y_end - g.y_start) + g.y_start = y
        rw [hc, hmre, hmodz]
        ring
    · unfold combine
      have := mul_nonneg (show (0:ℤ) ≤ x - g.x_start by linarith) (le_of_lt hdy)
      linarith
    · unfold combine
      have h1 : (x - g.x_start) * (g.y_end - g.y_start) ≤
          (g.x_end - g.x_start - 1) * (g.y_end - g.y_start) :=
        mul_le_mul_of_nonneg_right (by linarith) (by linarith)
      have h2 : (g.x_end - g.x_start - 1) * (g.y_end - g.y_start) =
          (g.x_end - g.x_start) * (g.y_end - g.y_start) - (g.y_end - g.y_start) := by ring
      linarith

/-- Witness for C7, on the region `[2,4) x [1,5)` (`dx = 2`, `dy = 4`):
round trip from flat index `5` and from the cell `(3,2)`. -/
theorem C7_split_combine_inverse_witness :
    combine 2 1 4 (split 2 1 4 5).1 (split 2 1 4 5).2 = 5 ∧
      split 2 1 4 (combine 2 1 4 3 2) = (3, 2) :=
  ⟨((C7_split_combine_inverse ⟨2, 4, 1, 5⟩ (by decide) (by decide)).1 5
      (by decide) (by decide)).1,
    ((C7_split_combine_inverse ⟨2, 4, 1, 5⟩ (by decide) (by decide)).2 3 2
      (by decide) (by decide) (by decide) (by decide)).1⟩

/-- C8: the boundary-condition injections of the stencil kernel force the same
fixed values regardless of prior buffer contents — `0` at `current[x,0]` when
`y = 1`, `0` at `current[x,ny-1]` when `y = ny-2`, `1` at `current[0,y]` on the
first rank when `x = 1`, `0` at `current[nx+1,y]` on the last rank when
`x = nx` — and they are idempotent: a second invocation at the same coordinate
leaves the current buffer unchanged.  The extent hypotheses `ny >= 3`,
`nx >= 1` hold whenever the kernel is invoked at all (the evaluated regions
use `1 <= y <= ny-2` and `1 <= x <= nx`). -/
theorem C8_boundary_injection_idempotent (u : Buf) (x y : ℤ) (p : parameters)
    (hny3 : 3 ≤ p.ny) (hnx1 : 1 ≤ p.nx) :
    (y = 1 → applyBC u x y p (index x 0 p) = 0) ∧
    (y = p.ny - 2 → applyBC u x y p (index x (p.ny - 1) p) = 0) ∧
    (p.rank = 0 → x = 1 → applyBC u x y p (index 0 y p) = 1) ∧
    (p.rank = p.nranks - 1 → x = p.nx → applyBC u x y p (index (p.nx + 1) y p) = 0) ∧
    applyBC (applyBC u x y p) x y p = applyBC u x y p := by
  refine ⟨?_, ?_, ?_, ?_, ?_⟩
  · intro hy
    subst hy
    rw [applyBC_apply]
    simp only [index]
    split_ifs with h4 h3 h2 h1
    · rfl
    · exfalso
      obtain ⟨⟨hr, hx⟩, heq⟩ := h3
      subst hx
      omega
    · rfl
    · rfl
    · exact absurd ⟨by trivial, by ring⟩ h1
  · intro hy
    subst hy
    rw [applyBC_apply]
    simp only [index]
    split_ifs with h4 h3 h2 h1
    · rfl
    · exfalso
      obtain ⟨⟨hr, hx⟩, heq⟩ := h3
      subst hx
      omega
    · rfl
    · rfl
    · exact absurd ⟨by trivial, by ring⟩ h2
  · intro hr hx
    subst hx
    rw [applyBC_apply]
    simp only [index]
    split_ifs with h4 h3 h2 h1
    · exfalso
      obtain ⟨⟨hr4, hx4⟩, heq⟩ := h4
      omega
    · rfl
    · exact absurd ⟨⟨hr, by trivial⟩, by ring⟩ h3
    · exact absurd ⟨⟨hr, by trivial⟩, by ring⟩ h3
    · exact absurd ⟨⟨hr, by trivial⟩, by ring⟩ h3
  · intro hr hx
    subst hx
    rw [applyBC_apply]
    simp only [index]
    split_ifs with h4 h3 h2 h1
    · rfl
    · exact absurd ⟨⟨hr, by trivial⟩, by ring⟩ h4
    · exact absurd ⟨⟨hr, by trivial⟩, by ring⟩ h4
    · exact absurd ⟨⟨hr, by trivial⟩, by ring⟩ h4
    · exact absurd ⟨⟨hr, by trivial⟩, by ring⟩ h4
  · funext o
    simp only [applyBC_apply]
    split_ifs <;> rfl

/-- Witness for C8 at `p46` (`ny = 6 >= 3`, `nx = 4 >= 1`), coordinate `(1,1)`:
the bottom-edge injection forces `0`, the left-edge injection forces `1`, and
the injections are idempotent on an arbitrary starting buffer. -/
theorem C8_boundary_injection_idempotent_witness :
    applyBC zeroBuf 1 1 p46 (index 1 0 p46) = 0 ∧
      applyBC zeroBuf 1 1 p46 (index 0 1 p46) = 1 ∧
      applyBC (applyBC zeroBuf 1 1 p46) 1 1 p46 = applyBC zeroBuf 1 1 p46 :=
  ⟨(C8_boundary_injection_idempotent zeroBuf 1 1 p46 (by decide) (by decide)).1 rfl,
    (C8_boundary_injection_idempotent zeroBuf 1 1 p46 (by decide) (by decide)).2.2.1 rfl rfl,
    (C8_boundary_injection_idempotent zeroBuf 1 1 p46 (by decide) (by decide)).2.2.2.2⟩

/-- C2 (code bug): the seam rows are crossed between the two exchange
functions.  On the run `nx = 4, ny = 6` (any rank — the grids do not depend on
the rank), `prev_boundary` — the lower-neighbour exchange, which refreshes the
lower halo row `0` — evaluates the upper seam row `x = nx = 4`, while
`next_boundary` — the upper-neighbour exchange, which refreshes the upper halo
row `nx + 1` — evaluates the lower seam row `x = 1`; the claim states the
opposite assignment. -/
theorem C2_seam_rows_crossed :
    regionCells (prev_boundary_grid pMR) = [(4, 1), (4, 2), (4, 3), (4, 4)] ∧
    regionCells (next_boundary_grid pMR) = [(1, 1), (1, 2), (1, 3), (1, 4)] ∧
    pMR.nx = 4 ∧ (4 : ℤ) ≠ 1 := by decide

/-- C3 (code bug): in the correct single-process run `nx = 4, ny = 6, ni = 1`,
the first region evaluation of the iteration (`prev_boundary`) produces the
coordinate `(4, 1)`, at which the kernel passes `(4, 1)` (the store target and
formula reads) and `(5, 1)` (the right-edge injection and the `x+1` read) to
`index` — and both violate the asserted precondition `x < nx`, although both
satisfy the halo-row bound `0 <= x < nx + 2`: the assertion failure branch is
reachable in a correct run. -/
theorem C3_index_assert_fires_in_correct_run :
    (4, 1) ∈ regionCells (prev_boundary_grid p46) ∧
    (4, 1) ∈ stencilIndexArgs 4 1 p46 ∧
    (5, 1) ∈ stencilIndexArgs 4 1 p46 ∧
    ¬ indexAssertOk 4 1 p46 ∧
    ¬ indexAssertOk 5 1 p46 ∧
    (0 ≤ (4 : ℤ) ∧ (4 : ℤ) < p46.nx + 2 ∧ 0 ≤ (1 : ℤ) ∧ (1 : ℤ) < p46.ny) ∧
    (0 ≤ (5 : ℤ) ∧ (5 : ℤ) < p46.nx + 2 ∧ 0 ≤ (1 : ℤ) ∧ (1 : ℤ) < p46.ny) := by decide

/-- No event of the two boundary-exchange functions is an interior-cell
evaluation: communication events are not evaluations, and the rows they
evaluate are the seam rows `x = nx` resp. `x = 1`, outside `[2, nx)`. -/
lemma boundary_events_not_interior (p : parameters) (e : Ev)
    (he : e ∈ prev_boundary_events p ++ next_boundary_events p) :
    isInteriorEv p e = false := by
  rcases List.mem_append.mp he with h | h
  · unfold prev_boundary_events at h
    rcases List.mem_append.mp h with h1 | h1
    · by_cases hr : 0 < p.rank
      · rw [if_pos hr] at h1
        simp only [List.mem_cons, List.not_mem_nil, or_false] at h1
        rcases h1 with rfl | rfl <;> rfl
      · rw [if_neg hr] at h1
        exact absurd h1 (List.not_mem_nil e)
    · obtain ⟨c, hc, rfl⟩ := List.mem_map.mp h1
      have hs := regionCells_mem_strong _ hc
      have hone : (prev_boundary_grid p).x_end - (prev_boundary_grid p).x_start = 1 := by
        simp [prev_boundary_grid]
      have hdy : 0 < (prev_boundary_grid p).y_end - (prev_boundary_grid p).y_start := by
        have hpos := hs.1
        rw [hone, one_mul] at hpos
        exact hpos
      have hb := hs.2 hdy
      show decide (2 ≤ c.1 ∧ c.1 < p.nx) = false
      apply decide_eq_false
      intro hcon
      simp only [prev_boundary_grid] at hb
      omega
  · unfold next_boundary_events at h
    rcases List.mem_append.mp h with h1 | h1
    · by_cases hr : p.rank < p.nranks - 1
      · rw [if_pos hr] at h1
        simp only [List.mem_cons, List.not_mem_nil, or_false] at h1
        rcases h1 with rfl | rfl <;> rfl
      · rw [if_neg hr] at h1
        exact absurd h1 (List.not_mem_nil e)
    · obtain ⟨c, hc, rfl⟩ := List.mem_map.mp h1
      have hs := regionCells_mem_strong _ hc
      have hone : (next_boundary_grid p).x_end - (next_boundary_grid p).x_start = 1 := by
        simp [next_boundary_grid]
      have hdy : 0 < (next_boundary_grid p).y_end - (next_boundary_grid p).y_start := by
        have hpos := hs.1
        rw [hone, one_mul] at hpos
        exact hpos
      have hb := hs.2 hdy
      show decide (2 ≤ c.1 ∧ c.1 < p.nx) = false
      apply decide_eq_false
      intro hcon
      simp only [next_boundary_grid] at hb
      omega

/-- Every event of `internal` is an interior-cell evaluation (given `ny >= 3`,
so that the regions' inner extent is positive). -/
lemma internal_events_interior (p : parameters) (hny : 3 ≤ p.ny) (e : Ev)
    (he : e ∈ internal_events p) : isInteriorEv p e = true := by
  obtain ⟨c, hc, rfl⟩ := List.mem_map.mp he
  have hdy : 0 < (internal_grid p).y_end - (internal_grid p).y_start := by
    simp only [internal_grid]
    omega
  have hb := (regionCells_mem_strong _ hc).2 hdy
  show decide (2 ≤ c.1 ∧ c.1 < p.nx) = true
  apply decide_eq_true
  simp only [internal_grid] at hb
  exact ⟨hb.1, hb.2.1⟩

/-- C5: within one iteration of the time-step driver, every event of the two
boundary exchanges — their blocking sends and receives and their seam-row cell
evaluations — occurs strictly before every interior-region cell evaluation:
the interior evaluation begins only after both exchange functions have
returned.  (`ny >= 3` just makes the regions' inner extent nonnegative; the
claim is about event order.) -/
theorem C5_exchanges_complete_before_interior (p : parameters) (hny : 3 ≤ p.ny)
    (i j : ℕ) (hi : i < (iteration_events p).length) (hj : j < (iteration_events p).length)
    (hnint : isInteriorEv p ((iteration_events p).get ⟨i, hi⟩) = false)
    (hint : isInteriorEv p ((iteration_events p).get ⟨j, hj⟩) = true) :
    i < j := by
  rw [List.get_eq_getElem] at hnint hint
  have hlen : (iteration_events p).length =
      (prev_boundary_events p ++ next_boundary_events p).length +
        (internal_events p).length := by
    simp only [iteration_events, List.length_append]
  have hiA : i < (prev_boundary_events p ++ next_boundary_events p).length := by
    by_contra hcon
    push_neg at hcon
    have h1 : (iteration_events p)[i] =
        (internal_events p).get
          ⟨i - (prev_boundary_events p ++ next_boundary_events p).length, by omega⟩ :=
      List.getElem_append_right hcon
    rw [h1] at hnint
    have hb2 : i - (prev_boundary_events p ++ next_boundary_events p).length <
        (internal_events p).length := by omega
    have h2 := internal_events_interior p hny _ (List.getElem_mem hb2)
    exact Bool.noConfusion (h2.symm.trans hnint)
  have hjB : (prev_boundary_events p ++ next_boundary_events p).length ≤ j := by
    by_contra hcon
    push_neg at hcon
    have h1 : (iteration_events p)[j] =
        (prev_boundary_events p ++ next_boundary_events p).get ⟨j, hcon⟩ :=
      List.getElem_append_left hcon
    rw [h1] at hint
    have h2 := boundary_events_not_interior p _ (List.getElem_mem hcon)
    exact Bool.noConfusion (h2.symm.trans hint)
  omega

/-- Witness for C5 at `pMR` (middle rank of three, `nx = 4, ny = 6`): event `0`
(the send of `prev_boundary`) precedes event `12` (the first interior-cell
evaluation). -/
theorem C5_exchanges_complete_before_interior_witness : (0 : ℕ) < 12 :=
  C5_exchanges_complete_before_interior pMR (by decide) 0 12 (by decide) (by decide)
    (by decide) (by decide)

/-- C4 (code bug): on the single-process run `nx = 1, ny = 3, ni = 1`, the
block the process writes at byte offset `header_bytes + rank * block` (the
offset itself, `24`, is as claimed) is read from `u_new` — but after the final
`std::swap` of the loop, `u_new` holds the field of iteration `ni - 1` (here
the all-zero initial field plus boundary injections), while the field produced
by the last iteration sits in `u_old` and has `gamma = 1/5` at its single
interior-row cell.  The written block is therefore not the final field. -/
theorem C4_file_block_holds_stale_field :
    values_offset p13 = 24 ∧
    fileBlock p13 (runSim p13).u_new = [0, 0, 0] ∧
    fileBlock p13 (runSim p13).u_old = [0, 1 / 5, 0] ∧
    fileBlock p13 (runSim p13).u_new ≠ fileBlock p13 (runSim p13).u_old := by
  have h1 : fileBlock p13 (runSim p13).u_new = [0, 0, 0] := by decide
  have h2 : fileBlock p13 (runSim p13).u_old = [0, 1 / 5, 0] := by
    have hni : List.range p13.ni.toNat = [0] := by decide
    have hg1 : ¬ (0 < p13.rank) := by decide
    have hg2 : ¬ (p13.rank < p13.nranks - 1) := by decide
    have hs1 : split (prev_boundary_grid p13).x_start (prev_boundary_grid p13).y_start
        ((prev_boundary_grid p13).y_end - (prev_boundary_grid p13).y_start) (Int.ofNat 0)
        = ((1 : ℤ), (1 : ℤ)) := by decide
    have hs2 : split (next_boundary_grid p13).x_start (next_boundary_grid p13).y_start
        ((next_boundary_grid p13).y_end - (next_boundary_grid p13).y_start) (Int.ofNat 0)
        = ((1 : ℤ), (1 : ℤ)) := by decide
    have hfb : (p13.nx * p13.ny).toNat = 3 := by decide
    have hr3 : List.range 3 = [0, 1, 2] := by decide
    simp only [fileBlock, hfb, hr3, List.map, runSim, hni, List.foldl, timeStep,
      prev_boundary, next_boundary, internal, hg1, hg2, if_false, ite_false,
      evalRegion, hs1, hs2, evalCell]
    norm_num [stencil, stencilValue, applyBC, index, parameters.gamma, parameters.alpha,
      p13, parameters_init, initialize_bufs, fill_n, zeroBuf, Function.update_apply]
  refine ⟨by decide, h1, h2, ?_⟩
  rw [h1, h2]
  intro hcon
  norm_num at hcon

/-- C9: parameter construction is fatal exactly on malformed command lines —
it survives (returns parameters) iff the argument vector has the program name
plus three positional values and each of the three values parses under
`std::stoll` — and on a malformed command line `main` produces no simulation
state at all (construction is `main`'s first statement). -/
theorem C9_config_errors_fatal (argv : List String) :
    ((parameters_of_argv argv).isSome ↔
      (argv.length = 4 ∧ ∀ s ∈ argv.drop 1, (stoll s).isSome)) ∧
    (parameters_of_argv argv = none → mainRun argv = none) := by
  constructor
  · rcases argv with _ | ⟨a0, _ | ⟨a1, _ | ⟨a2, _ | ⟨a3, _ | ⟨a4, rest⟩⟩⟩⟩⟩
    · simp [parameters_of_argv]
    · simp [parameters_of_argv]
    · simp [parameters_of_argv]
    · simp [parameters_of_argv]
    · cases h1 : stoll a1 <;> cases h2 : stoll a2 <;> cases h3 : stoll a3 <;>
        simp [parameters_of_argv, h1, h2, h3]
    · simp [parameters_of_argv]
  · intro h
    simp [mainRun, h]

/-- Witness for C9: a well-formed command line constructs parameters; a
truncated one terminates before any simulation state exists. -/
theorem C9_config_errors_fatal_witness :
    (parameters_of_argv [("heat"), ("4"), ("6"), ("10")]).isSome ∧
      mainRun [("heat"), ("4")] = none :=
  ⟨(C9_config_errors_fatal [("heat"), ("4"), ("6"), ("10")]).1.mpr (by decide),
    (C9_config_errors_fatal [("heat"), ("4")]).2 (by decide)⟩

/-- C10: `initialize` writes zeros only through its first pointer — it is the
two-fold `fill_n` of `u_new` over the `n`-cell range, leaves everything outside
that range and the whole second buffer untouched — and `u_old` holds zeros at
the start of the first iteration only because the allocation value-initialized
it (`u_old = zeroBuf`). -/
theorem C10_initialize_writes_only_first_buffer (u_new u_old : Buf) (n : ℤ) :
    initialize_bufs u_new u_old n = (fill_n (fill_n u_new n 0) n 0, u_old) ∧
    (∀ o : ℤ, 0 ≤ o → o < n → (initialize_bufs u_new u_old n).1 o = 0) ∧
    (∀ o : ℤ, ¬(0 ≤ o ∧ o < n) → (initialize_bufs u_new u_old n).1 o = u_new o) ∧
    (initialize_bufs u_new u_old n).2 = u_old ∧
    (u_old = zeroBuf → ∀ o : ℤ, (initialize_bufs u_new u_old n).2 o = 0) := by
  refine ⟨rfl, ?_, ?_, rfl, ?_⟩
  · intro o h0 h1
    simp [initialize_bufs, fill_n, h0, h1]
  · intro o h
    simp [initialize_bufs, fill_n, h]
  · intro h o
    show u_old o = 0
    rw [h]
    rfl

/-- Witness for C10 at `n = 9` on zero-allocated buffers: a cell in range is
zeroed through the first pointer, a cell out of range keeps the first buffer's
value, and the second buffer is all zeros only by virtue of its allocation. -/
theorem C10_initialize_writes_only_first_buffer_witness :
    (initialize_bufs zeroBuf zeroBuf 9).1 4 = 0 ∧
      (initialize_bufs zeroBuf zeroBuf 9).1 (-1) = zeroBuf (-1) ∧
      (initialize_bufs zeroBuf zeroBuf 9).2 5 = 0 :=
  ⟨(C10_initialize_writes_only_first_buffer zeroBuf zeroBuf 9).2.1 4 (by decide) (by decide),
    (C10_initialize_writes_only_first_buffer zeroBuf zeroBuf 9).2.2.1 (-1) (by decide),
    (C10_initialize_writes_only_first_buffer zeroBuf zeroBuf 9).2.2.2.2 rfl 5⟩
